import Mathlib

/-!
Verification of the htsget-rs byte-range resolver specification against the
repository source.  Rust code is shallowly embedded: machine integers become
`Nat` (with explicit wrap-around where the source casts), fallible functions
return `Except`, and external-library calls that are opaque to the repository
(encryption, serialization) are passed in as explicit function parameters.
-/

namespace HtsGet

/-! ## Data model from `htsget-config/src/types.rs` -/

/-- Translation of `enum Format` (types.rs): all possible formats. -/
inductive Format
  | bam
  | cram
  | vcf
  | bcf
deriving DecidableEq

/-- Translation of `enum KeyType` (types.rs): the type of key of the file. -/
inductive KeyType
  | file
  | index
deriving DecidableEq

/-- Translation of `enum Class` (types.rs): class component of the htsget response. -/
inductive Class
  | header
  | body
deriving DecidableEq

/-- Translation of `Format::file_ending` (types.rs). -/
def Format.file_ending : Format → String
  | .bam => ".bam"
  | .cram => ".cram"
  | .vcf => ".vcf.gz"
  | .bcf => ".bcf"

/-- Translation of `Format::index_file_ending` (types.rs). -/
def Format.index_file_ending : Format → String
  | .bam => ".bam.bai"
  | .cram => ".cram.crai"
  | .vcf => ".vcf.gz.tbi"
  | .bcf => ".bcf.csi"

/-- Model of `str::ends_with` on UTF-8 strings, via suffix testing on the
character lists. -/
def endsWith (key suffix : String) : Bool :=
  suffix.data.isSuffixOf key.data

/-- Translation of `KeyType::from_ending` (types.rs lines 40-56).  The chain of
`ends_with` tests is kept exactly as in the source, including the duplicated
`Format::Vcf` test; the `Format::Bcf` index ending is never tested. -/
def KeyType.from_ending (key : String) : KeyType :=
  if endsWith key Format.bam.index_file_ending
      || endsWith key Format.vcf.index_file_ending
      || endsWith key Format.cram.index_file_ending
      || endsWith key Format.vcf.index_file_ending
      || endsWith key ".bam.gzi"
      || endsWith key ".vcf.gz.gzi"
      || endsWith key ".bcf.gzi"
  then .index
  else .file

/-- Translation of `ObjectType` (htsget-config resolver object type): a query is
either for a regular object or for a Crypt4GH-encrypted object.  The key
material carried by the `Crypt4GH` variant is irrelevant to key formatting and
is omitted. -/
inductive ObjectType
  | regular
  | crypt4GH
deriving DecidableEq

/-- Translation of `ObjectType::is_crypt4gh`. -/
def ObjectType.is_crypt4gh : ObjectType → Bool
  | .regular => false
  | .crypt4GH => true

/-- Translation of `struct Interval` (types.rs): 0-based, half-open, both
bounds optional `u32` values. -/
structure Interval where
  start : Option Nat
  endPos : Option Nat
deriving DecidableEq

/-- Translation of `struct Query` (types.rs), restricted to the fields the
modelled operations read (`fields`, `tags`, `no_tags` and the raw `request` are
never consulted by any embedded function and are omitted). -/
structure Query where
  id : String
  format : Format
  queryClass : Class
  reference_name : Option String
  interval : Interval
  object_type : ObjectType
deriving DecidableEq

/-- Translation of `Format::fmt_file` (types.rs lines 69-80): the data key is
the query id followed by the file ending, with a `.c4gh` suffix when the
query's object type is Crypt4GH. -/
def Format.fmt_file (f : Format) (query : Query) : String :=
  let id := query.id ++ f.file_ending
  if query.object_type.is_crypt4gh then id ++ ".c4gh" else id

/-- Translation of `Format::fmt_index` (types.rs lines 91-93): the index key is
the id followed by the index file ending; the object type is not an input. -/
def Format.fmt_index (f : Format) (id : String) : String :=
  id ++ f.index_file_ending

/-! ## Headers, Url, Response from `htsget-config/src/types.rs` -/

/-- Model of `BTreeMap<String, String>` lookups for the `Headers` embedding:
the value bound to a key in an association list without duplicate keys. -/
def lookupEntry : List (String × String) → String → Option String
  | [], _ => none
  | (k', v') :: rest, k => if k' = k then some v' else lookupEntry rest k

/-- Model of `self.0.entry(key).or_default()` followed by the push in
`Headers::insert`: an absent key is bound to the value, an empty existing value
is replaced, and a non-empty existing value gets the new value appended after a
comma and space. -/
def insertEntry : List (String × String) → String → String → List (String × String)
  | [], k, v => [(k, v)]
  | (k', v') :: rest, k, v =>
    if k' = k then
      (if v' = "" then (k', v) else (k', v' ++ ", " ++ v)) :: rest
    else
      (k', v') :: insertEntry rest k v

/-- Model of a single `BTreeMap::insert` as performed by `BTreeMap::extend`:
the new value replaces any existing value at the key. -/
def overwriteEntry : List (String × String) → String → String → List (String × String)
  | [], k, v => [(k, v)]
  | (k', v') :: rest, k, v =>
    if k' = k then (k', v) :: rest else (k', v') :: overwriteEntry rest k v

/-- Translation of `struct Headers(BTreeMap<String, String>)` (types.rs),
modelled as an association list of key-value pairs. -/
structure Headers where
  entries : List (String × String)
deriving DecidableEq

/-- Translation of `Headers::default()`. -/
def Headers.default : Headers := ⟨[]⟩

/-- Value bound to a key in the headers map. -/
def Headers.lookup (h : Headers) (k : String) : Option String :=
  lookupEntry h.entries k

/-- Translation of `Headers::insert` (types.rs lines 582-589): if the entry
already exists with a non-empty value, the value is appended to the existing
value, separated by a comma. -/
def Headers.insert (h : Headers) (key value : String) : Headers :=
  ⟨insertEntry h.entries key value⟩

/-- Translation of `Headers::with_header` (types.rs lines 571-574). -/
def Headers.with_header (h : Headers) (key value : String) : Headers :=
  h.insert key value

/-- Translation of `Headers::is_empty`. -/
def Headers.is_empty (h : Headers) : Bool :=
  h.entries.isEmpty

/-- Translation of `Headers::extend` (types.rs lines 592-594), which delegates
to `BTreeMap::extend`: every entry of the other map is inserted, replacing the
value at any key both maps share. -/
def Headers.extend (h other : Headers) : Headers :=
  ⟨other.entries.foldl (fun acc p => overwriteEntry acc p.1 p.2) h.entries⟩

/-- Translation of `struct Url` (types.rs).  The source field `class` is
renamed `classTag` because `class` is a reserved word in Lean. -/
structure Url where
  url : String
  headers : Option Headers
  classTag : Option Class
deriving DecidableEq

/-- Translation of `Url::new`. -/
def Url.new (u : String) : Url := ⟨u, none, none⟩

/-- Translation of `Url::with_headers` (types.rs lines 657-660): the headers
are set, filtered out when empty. -/
def Url.with_headers (u : Url) (h : Headers) : Url :=
  { u with headers := if h.is_empty then none else some h }

/-- Translation of `Url::set_class`. -/
def Url.set_class (u : Url) (c : Option Class) : Url :=
  { u with classTag := c }

/-- Translation of `Url::with_class`. -/
def Url.with_class (u : Url) (c : Class) : Url :=
  u.set_class (some c)

/-- Translation of `struct Response` (types.rs). -/
structure Response where
  format : Format
  urls : List Url
deriving DecidableEq

/-! ## Interval conversion and the error taxonomy (`htsget-config/src/types.rs`) -/

/-- The largest `u32` value. -/
def u32Max : Nat := 4294967295

/-- Structured messages of the `io::Error` values created inside
`Interval::into_one_based` and its helpers.  The source builds them with
`format!`; they are kept structured here and rendered by `IoMsg.render`. -/
inductive IoMsg
  | couldNotConvertToOneBased (value : Nat)
  | couldNotConvertPosition (value : Nat)
deriving DecidableEq

/-- Rendering of the structured messages.  The first follows the source
`format!` string exactly; the second abbreviates the display of the inner
`Position::try_from` error, which comes from an external library.  No theorem
depends on the rendered text, only on the `HtsGetError` constructor built
around it. -/
def IoMsg.render : IoMsg → String
  | .couldNotConvertToOneBased value => s!"could not convert {value} to 1-based position."
  | .couldNotConvertPosition value => s!"could not convert {value} into Position"

/-- Model of `io::Error` as produced in types.rs: always kind `Other` with a
message. -/
structure IoError where
  msg : IoMsg
deriving DecidableEq

/-- Translation of `enum HtsGetError` (types.rs lines 494-516). -/
inductive HtsGetError
  | notFound (s : String)
  | unsupportedFormat (s : String)
  | invalidInput (s : String)
  | invalidRange (s : String)
  | ioError (s : String)
  | parseError (s : String)
  | internalError (s : String)
deriving DecidableEq

/-- Discriminator for the `InvalidInput` variant. -/
def HtsGetError.is_invalid_input : HtsGetError → Bool
  | .invalidInput _ => true
  | _ => false

/-- Translation of `impl From<io::Error> for HtsGetError` (types.rs lines
554-558): every `io::Error` becomes `HtsGetError::IoError` carrying the
rendered message. -/
def HtsGetError.from_io_error (err : IoError) : HtsGetError :=
  .ioError err.msg.render

/-- Translation of a 1-based noodles `Interval` (closed, both bounds
optional positions). -/
structure NoodlesInterval where
  start : Option Nat
  endPos : Option Nat
deriving DecidableEq

/-- Translation of `Interval::convert_position` (types.rs lines 201-216): apply
the conversion function, then convert to a noodles `Position`
(`NonZeroUsize`), which fails exactly on zero.  The `u32` to `usize` conversion
of the source cannot fail and is elided. -/
def Interval.convert_position (value : Nat) (convertFn : Nat → Except IoError Nat) :
    Except IoError Nat :=
  match convertFn value with
  | .error err => .error err
  | .ok v => if v = 0 then .error ⟨.couldNotConvertPosition v⟩ else .ok v

/-- Translation of `Interval::convert_start` (types.rs lines 184-193):
`checked_add(1)` on a `u32` fails exactly at `u32::MAX`. -/
def Interval.convert_start (start : Nat) : Except IoError Nat :=
  Interval.convert_position start (fun value =>
    if value = u32Max then .error ⟨.couldNotConvertToOneBased value⟩ else .ok (value + 1))

/-- Translation of `Interval::convert_end` (types.rs lines 196-198): the
conversion function is the identity (`Ok`). -/
def Interval.convert_end (endValue : Nat) : Except IoError Nat :=
  Interval.convert_position endValue .ok

/-- Translation of `Interval::into_one_based` (types.rs lines 172-181).  The
`?` propagation of the source is written as explicit matches; in the
both-bounds arm the start is converted first, as in the source. -/
def Interval.into_one_based : Interval → Except IoError NoodlesInterval
  | ⟨none, none⟩ => .ok ⟨none, none⟩
  | ⟨none, some e⟩ =>
    match Interval.convert_end e with
    | .error err => .error err
    | .ok e' => .ok ⟨none, some e'⟩
  | ⟨some s, none⟩ =>
    match Interval.convert_start s with
    | .error err => .error err
    | .ok s' => .ok ⟨some s', none⟩
  | ⟨some s, some e⟩ =>
    match Interval.convert_start s with
    | .error err => .error err
    | .ok s' =>
      match Interval.convert_end e with
      | .error err => .error err
      | .ok e' => .ok ⟨some s', some e'⟩

/-! ## Crypt4GH edit lists (`async-crypt4gh/src/edit_lists.rs`) -/

/-- The Crypt4GH plaintext block size of 65536 bytes. -/
def dataBlockSize : Nat := 65536

/-- Modelled from the spec: `unencrypted_clamp` lives in
`async-crypt4gh/src/util.rs`, which is not under `src/`; the spec defines
`clamp_down(x) = floor(x / B) * B` over plaintext offsets with `B = 65536`. -/
def unencrypted_clamp (pos _streamLength : Nat) : Nat :=
  pos / dataBlockSize * dataBlockSize

/-- Modelled from the spec: `unencrypted_clamp_next` lives in
`async-crypt4gh/src/util.rs`, which is not under `src/`; the spec defines
`clamp_up(x) = ceil(x / B) * B`, capped at the stream length. -/
def unencrypted_clamp_next (pos streamLength : Nat) : Nat :=
  min ((pos + dataBlockSize - 1) / dataBlockSize * dataBlockSize) streamLength

/-- Translation of `struct UnencryptedPosition` (edit_lists.rs lines 14-18):
inclusive start and exclusive end of an unencrypted byte range.  The source
field `end` is renamed `endPos` because `end` is a reserved word in Lean. -/
structure UnencryptedPosition where
  start : Nat
  endPos : Nat
deriving DecidableEq

/-- The folding step of `EditHeader::create_edit_list` (edit_lists.rs lines
125-137), acting on the accumulator pair of the edit list built so far and the
previous discard. -/
def create_edit_list_step (streamLength : Nat) (acc : List Nat × Nat)
    (range : UnencryptedPosition) : List Nat × Nat :=
  let start_boundary := unencrypted_clamp range.start streamLength
  let end_boundary := unencrypted_clamp_next range.endPos streamLength
  let discard := range.start - start_boundary + acc.2
  let keep := range.endPos - range.start
  (acc.1 ++ [discard, keep], end_boundary - range.endPos)

/-- Translation of `EditHeader::create_edit_list` (edit_lists.rs lines
121-141): fold over the unencrypted positions with initial accumulator
`([], 0)`, discarding the final trailing accumulator. -/
def create_edit_list (positions : List UnencryptedPosition) (streamLength : Nat) : List Nat :=
  (positions.foldl (create_edit_list_step streamLength) ([], 0)).1

/-- Translation of `HeaderInfo` (crypt4gh crate, as used by edit_lists.rs):
magic number bytes, version and header packet count. -/
structure HeaderInfo where
  magic_number : List Nat
  version : Nat
  packets_count : Nat
deriving DecidableEq

/-- Model of an encrypted header packet as read by the async-crypt4gh reader:
the raw 4-byte length field (`packet.packet_length()`) and the packet body
(`packet.header`). -/
structure EncryptedHeaderPacket where
  packet_length : List Nat
  header : List Nat
deriving DecidableEq

/-- Translation of `struct Header` (edit_lists.rs lines 36-40): the serialized
header info, the retained original header packets, and the new edit-list
packet bytes. -/
structure C4ghHeader where
  header_info : List Nat
  original_header : List Nat
  edit_list_packet : List Nat
deriving DecidableEq

/-- Translation of `Header::as_slice` (edit_lists.rs lines 59-66). -/
def C4ghHeader.as_slice (h : C4ghHeader) : List Nat :=
  h.header_info ++ h.original_header ++ h.edit_list_packet

/-- Structured messages of `Error::Crypt4GHError` as produced in
edit_lists.rs: the two literal messages of the source, plus a constructor for
messages propagated from the crypt4gh and bincode libraries. -/
inductive C4ghMsg
  | editListsAlreadyExist
  | couldNotEncryptHeaderPacket
  | libMessage (s : String)
deriving DecidableEq

/-- Translation of `Error::Crypt4GHError` (async-crypt4gh error type, as used
by edit_lists.rs). -/
inductive C4ghError
  | crypt4GHError (msg : C4ghMsg)
deriving DecidableEq

/-- State of the async-crypt4gh `Reader` as observed by `EditHeader`
(edit_lists.rs accesses `edit_list_packet()`, `header_info()` and
`encrypted_header_packets()`; the reader itself is not under `src/`, so its
observations are fields). -/
structure EditHeaderReader where
  edit_list_packet : Option (List Nat)
  header_info : Option HeaderInfo
  encrypted_header_packets : Option (List EncryptedHeaderPacket)
deriving DecidableEq

/-- Translation of `struct EditHeader` (edit_lists.rs lines 75-84).  Keys are
opaque byte lists. -/
structure EditHeader where
  reader : EditHeaderReader
  unencrypted_positions : List UnencryptedPosition
  private_key : List Nat
  recipient_public_key : List Nat
  stream_length : Nat
deriving DecidableEq

/-- The external-library functions called by `EditHeader::edit_list`:
`crypt4gh::header::encrypt` (returning the list of encrypted packets, one per
recipient key), `bincode::serialize` on a `HeaderInfo`, and
`crypt4gh::header::make_packet_data_edit_list`.  They are opaque to the
repository and are passed in as parameters. -/
structure C4ghEnv where
  encrypt : List Nat → List Nat → List Nat → Except String (List (List Nat))
  bincode_serialize : HeaderInfo → Except String (List Nat)
  make_packet_data_edit_list : List Nat → List Nat

/-- Method form of `create_edit_list` over the `EditHeader` state. -/
def EditHeader.create_edit_list (st : EditHeader) : List Nat :=
  HtsGet.create_edit_list st.unencrypted_positions st.stream_length

/-- Translation of `EditHeader::encrypt_edit_list` (edit_lists.rs lines
107-118): encrypt the packet with the keys, then take the last produced
packet, failing when there is none. -/
def EditHeader.encrypt_edit_list (env : C4ghEnv) (st : EditHeader)
    (edit_list_packet : List Nat) : Except C4ghError (List Nat) :=
  match env.encrypt st.private_key st.recipient_public_key edit_list_packet with
  | .error e => .error (.crypt4GHError (.libMessage e))
  | .ok packets =>
    match packets.getLast? with
    | some p => .ok p
    | none => .error (.crypt4GHError .couldNotEncryptHeaderPacket)

/-- Little-endian byte serialization of a `u32` (`u32::to_le_bytes` after the
`as u32` cast of the source, hence the mod-256 reductions). -/
def toLeBytes32 (n : Nat) : List Nat :=
  [n % 256, n / 256 % 256, n / 256 ^ 2 % 256, n / 256 ^ 3 % 256]

/-- Translation of `EditHeader::edit_list` (edit_lists.rs lines 144-189):
refuse when an edit list already exists; return `none` when header info or
encrypted packets are unavailable; otherwise serialize the header info with
the packet count incremented, retain the original packets with their length
fields, and append the encrypted edit-list packet behind its little-endian
`u32` length (the length counts its own 4 bytes). -/
def edit_list (env : C4ghEnv) (st : EditHeader) : Except C4ghError (Option C4ghHeader) :=
  if st.reader.edit_list_packet.isSome then
    .error (.crypt4GHError .editListsAlreadyExist)
  else
    match st.reader.header_info, st.reader.encrypted_header_packets with
    | some hi, some packets =>
      let header_info : HeaderInfo := { hi with packets_count := hi.packets_count + 1 }
      let encrypted_header_packets :=
        (packets.map (fun packet => packet.packet_length ++ packet.header)).flatten
      match env.bincode_serialize header_info with
      | .error err => .error (.crypt4GHError (.libMessage err))
      | .ok header_info_bytes =>
        let editList := st.create_edit_list
        let edit_list_packet := env.make_packet_data_edit_list editList
        match EditHeader.encrypt_edit_list env st edit_list_packet with
        | .error e => .error e
        | .ok edit_list_bytes =>
          .ok (some ⟨header_info_bytes, encrypted_header_packets,
            toLeBytes32 (edit_list_bytes.length + 4) ++ edit_list_bytes⟩)
    | _, _ => .ok none

/-! ## BAM unmapped-reads search (`htsget-search/src/htsget/bam_search.rs` and
`htsget-search/src/htsget/blocking/bam_search.rs`) -/

/-- Translation of the noodles BGZF `VirtualPosition`: a compressed byte
offset and an uncompressed offset within the block. -/
structure VirtualPosition where
  compressed : Nat
  uncompressed : Nat
deriving DecidableEq

/-- Translation of `VirtualPositionExt::bytes_range_start`: the compressed
offset of the virtual position. -/
def VirtualPosition.bytes_range_start (vp : VirtualPosition) : Nat :=
  vp.compressed

/-- Translation of the BAI pseudo-bin `Metadata` record: start and end virtual
positions of the unplaced records and the mapped and unmapped record counts. -/
structure BaiMetadata where
  start_position : VirtualPosition
  end_position : VirtualPosition
  mapped_record_count : Nat
  unmapped_record_count : Nat
deriving DecidableEq

/-- Translation of a BAI index `ReferenceSequence`: bins of chunks, the linear
index (`intervals`) and the optional metadata pseudo-bin. -/
structure BaiReferenceSequence where
  bins : List (List (VirtualPosition × VirtualPosition))
  intervals : List VirtualPosition
  metadata : Option BaiMetadata
deriving DecidableEq

/-- Translation of a BAI `Index`: the per-reference-sequence records. -/
structure BaiIndex where
  reference_sequences : List BaiReferenceSequence
deriving DecidableEq

/-- Modelled from the spec: `BytesPosition` is declared in
`htsget-search/src/storage/mod.rs`, which is not under `src/`.  The spec
describes a half-open byte interval with an optional class tag; the in-src
call `BytesPosition::new(Some(7), Some(9), None)` (s3.rs tests) pins both
bounds as optional.  The source field `class` is renamed `classTag`. -/
structure BytesPosition where
  start : Option Nat
  endPos : Option Nat
  classTag : Option Class
deriving DecidableEq

/-- Translation of `BytesPosition::default()`. -/
def BytesPosition.default : BytesPosition := ⟨none, none, none⟩

/-- Translation of `BytesPosition::with_start`. -/
def BytesPosition.with_start (b : BytesPosition) (s : Nat) : BytesPosition :=
  { b with start := some s }

/-- Translation of `BytesPosition::with_end`. -/
def BytesPosition.with_end (b : BytesPosition) (e : Nat) : BytesPosition :=
  { b with endPos := some e }

/-- Translation of the older-generation `BytesRange` (blocking storage), also
a pair of optional byte offsets. -/
structure BytesRange where
  start : Option Nat
  endPos : Option Nat
deriving DecidableEq

/-- Translation of `BytesRange::default()`. -/
def BytesRange.default : BytesRange := ⟨none, none⟩

/-- Translation of `BytesRange::with_start`. -/
def BytesRange.with_start (b : BytesRange) (s : Nat) : BytesRange :=
  { b with start := some s }

/-- Translation of `BytesRange::with_end`. -/
def BytesRange.with_end (b : BytesRange) (e : Nat) : BytesRange :=
  { b with endPos := some e }

/-- Modelled from the spec: the `BGZF_EOF` constant is declared in
`htsget-search/src/htsget/search.rs`, which is not under `src/`; the spec pins
the 28-byte BGZF EOF literal. -/
def BGZF_EOF : List Nat :=
  [0x1f, 0x8b, 0x08, 0x04, 0x00, 0x00, 0x00, 0x00, 0x00, 0xff, 0x06, 0x00, 0x42, 0x43,
   0x02, 0x00, 0x1b, 0x00, 0x03, 0x00, 0x00, 0x00, 0x00, 0x00, 0x00, 0x00, 0x00, 0x00]

/-- Translation of the async `BamSearch::get_byte_ranges_for_unmapped`
(bam_search.rs lines 98-131).  The reversed reference-sequence scan takes the
last linear-index entry of the last reference sequence that has one; when none
exists, the virtual position built from the header end offset is used.  The
header end offset (computed by `get_header_end_offset`, not under `src/`) and
the file size returned by `Storage::head` are inputs. -/
def bamGetByteRangesForUnmapped (header_end_offset file_size : Nat)
    (index : BaiIndex) : List BytesPosition :=
  let last_interval :=
    index.reference_sequences.reverse.findSome? (fun rs => rs.intervals.getLast?)
  let start :=
    match last_interval with
    | some s => s
    | none => (⟨header_end_offset, 0⟩ : VirtualPosition)
  [(BytesPosition.default.with_start start.bytes_range_start).with_end
    (file_size - BGZF_EOF.length)]

/-- Translation of the blocking `BamSearch::get_byte_ranges_for_unmapped`
(blocking/bam_search.rs lines 54-76).  The fallback start is the reader's
virtual position after the header read (an input here), and the end is the
whole file size, with no EOF-length subtraction. -/
def blockingBamGetByteRangesForUnmapped (header_virtual_position : VirtualPosition)
    (file_size : Nat) (index : BaiIndex) : List BytesRange :=
  let last_interval :=
    index.reference_sequences.reverse.findSome? (fun rs => rs.intervals.getLast?)
  let start :=
    match last_interval with
    | some s => s
    | none => header_virtual_position
  [(BytesRange.default.with_start start.bytes_range_start).with_end file_size]

/-- Ordering key of a noodles `VirtualPosition`: the underlying `u64`, with
the compressed offset in the high bits. -/
def VirtualPosition.toKey (vp : VirtualPosition) : Nat :=
  vp.compressed * 65536 + vp.uncompressed

/-- Reading of claim C3: every virtual position mentioned for the unmapped
scan, namely the linear-index entries and the `unmapped_start` metadata
position of each reference sequence. -/
def mentionedVirtualPositions (index : BaiIndex) : List VirtualPosition :=
  (index.reference_sequences.map (fun rs =>
    rs.intervals ++ (match rs.metadata with
      | some m => [m.start_position]
      | none => []))).flatten

/-- Reading of claim C3: the greatest virtual position mentioned in the
index. -/
def greatestVpMentioned (index : BaiIndex) : Option VirtualPosition :=
  (mentionedVirtualPositions index).foldl
    (fun acc vp =>
      match acc with
      | none => some vp
      | some m => if m.toKey < vp.toKey then some vp else some m)
    none

/-- Reading of claim C3: the byte range the claim says the engine emits for a
`reference_name = "*"` BAM query. -/
def claimedUnmappedRanges (header_end_offset file_size : Nat)
    (index : BaiIndex) : List BytesPosition :=
  let start :=
    match greatestVpMentioned index with
    | some vp => vp.compressed
    | none => header_end_offset
  [(BytesPosition.default.with_start start).with_end (file_size - BGZF_EOF.length)]

/-- The last linear-index entry across all reference sequences, in index
order: the final entry of the final reference sequence that has any. -/
def lastLinearIndexEntry (index : BaiIndex) : Option VirtualPosition :=
  (index.reference_sequences.filterMap (fun rs => rs.intervals.getLast?)).getLast?

/-! ## S3 storage error normalization (`htsget-search/src/storage/s3.rs`) -/

/-- Translation of the AWS SDK `GetObjectError` variants. -/
inductive GetObjectError
  | invalidObjectState (s : String)
  | noSuchKey (s : String)
  | unhandled (s : String)
deriving DecidableEq

/-- Model of `GetObjectError::to_string`: the carried message. -/
def GetObjectError.to_message : GetObjectError → String
  | .invalidObjectState s => s
  | .noSuchKey s => s
  | .unhandled s => s

/-- Translation of the AWS SDK `HeadObjectError` variants. -/
inductive HeadObjectError
  | notFound (s : String)
  | unhandled (s : String)
deriving DecidableEq

/-- Model of `HeadObjectError::to_string`: the carried message. -/
def HeadObjectError.to_message : HeadObjectError → String
  | .notFound s => s
  | .unhandled s => s

/-- Translation of `enum StorageError`, restricted to the variants the
embedded s3.rs code constructs (the enum itself is declared in
`htsget-search/src/storage/mod.rs`, not under `src/`). -/
inductive StorageError
  | keyNotFound (key : String)
  | awsS3Error (msg key : String)
  | ioError (msg : String)
deriving DecidableEq

/-- Translation of `S3Storage::map_get_error` (s3.rs lines 197-208):
`NoSuchKey` becomes `KeyNotFound`; every other service error becomes
`AwsS3Error` with its message. -/
def mapGetError (key : String) (error : GetObjectError) : StorageError :=
  match error with
  | .noSuchKey _ => .keyNotFound key
  | e => .awsS3Error e.to_message key

/-- Translation of the error mapping inside `S3Storage::s3_head` (s3.rs lines
99-116): `NotFound` becomes `KeyNotFound`; every other service error becomes
`AwsS3Error` with its message. -/
def mapHeadError (key : String) (err : HeadObjectError) : StorageError :=
  match err with
  | .notFound _ => .keyNotFound key
  | e => .awsS3Error e.to_message key

/-- Modelled from the spec: the `From<StorageError> for HtsGetError`
conversion lives in `htsget-search/src/storage/mod.rs`, which is not under
`src/`; the spec states that storage errors indicating absence are normalized
to `NotFound` and all others map to `IoError`.  Messages are passed through. -/
def storageErrorToHtsGetError : StorageError → HtsGetError
  | .keyNotFound key => .notFound key
  | .awsS3Error msg _ => .ioError msg
  | .ioError msg => .ioError msg

/-- Reading of claim C8: the storage errors that indicate absence of the
requested key. -/
def GetObjectError.indicates_absence : GetObjectError → Bool
  | .noSuchKey _ => true
  | _ => false

/-- Reading of claim C8: the head errors that indicate absence of the
requested key. -/
def HeadObjectError.indicates_absence : HeadObjectError → Bool
  | .notFound _ => true
  | _ => false

/-! ## Header-class search results pinned by the repository's tests -/

/-- The data URL of the async BAM search tests
(bam_search.rs `expected_url`). -/
def bamExpectedUrl : String := "http://127.0.0.1:8081/data/htsnexus_test_NA12878.bam"

/-- Translation of the expected response of the async `search_header` BAM test
(bam_search.rs lines 370-387): the `assert_eq!` pins `search` on a
`Class::Header` BAM query to exactly this response. -/
def bamSearchHeaderExpectedResponse : Response :=
  ⟨.bam,
    [((Url.new bamExpectedUrl).with_headers
        (Headers.default.with_header "Range" "bytes=0-4667")).with_class .header]⟩

/-- Translation of the expected response of the `search_header` BCF test
(bcf_search.rs lines 240-258), parameterized by the storage-dependent data
URL. -/
def bcfSearchHeaderExpectedResponse (u : String) : Response :=
  ⟨.bcf,
    [((Url.new u).with_headers
        (Headers.default.with_header "Range" "bytes=0-950")).with_class .header]⟩

/-- Translation of the expected response of the blocking `search_header` BAM
test (blocking/bam_search.rs lines 252-268), parameterized by the
storage-dependent data URL. -/
def blockingBamSearchHeaderExpectedResponse (u : String) : Response :=
  ⟨.bam,
    [((Url.new u).with_headers
        (Headers.default.with_header "Range" "bytes=0-4668")).with_class .header]⟩

/-! ## Claim-side definitions and concrete fixtures -/

/-- Reading of claim C1: the edit list as the flattened `(discard, keep)`
pairs, with `discard = (start - clamp_down start) + previous_trailing`,
`keep = end - start` and `previous_trailing = clamp_up end - end`, starting
from a given first trailing value. -/
def claim_edit_list (streamLength prev_trailing : Nat) :
    List UnencryptedPosition → List Nat
  | [] => []
  | r :: rs =>
    (r.start - unencrypted_clamp r.start streamLength + prev_trailing) ::
      (r.endPos - r.start) ::
        claim_edit_list streamLength
          (unencrypted_clamp_next r.endPos streamLength - r.endPos) rs

/-- Translation of `test_positions` (edit_lists.rs tests). -/
def test_positions : List UnencryptedPosition :=
  [⟨0, 7853⟩, ⟨145110, 453039⟩, ⟨5485074, 5485112⟩]

/-- A BAI index whose metadata `unmapped_start` position (200) is greater than
every linear-index entry (the single entry 100). -/
def c3Index : BaiIndex :=
  ⟨[⟨[], [⟨100, 0⟩], some ⟨⟨200, 0⟩, ⟨300, 0⟩, 5, 7⟩⟩]⟩

/-- A Crypt4GH query for claim C7. -/
def c7Query : Query := ⟨"id1", .bam, .body, none, ⟨none, none⟩, .crypt4GH⟩

/-- Concrete external-library functions for the edit-list witnesses:
encryption returns the packet unchanged as the single produced packet,
serialization returns a fixed byte, and packet construction is the
identity. -/
def envW : C4ghEnv :=
  ⟨fun _ _ packet => .ok [packet], fun _ => .ok [7], fun editList => editList⟩

/-- A reader state without an edit-list packet, with readable header info and
one encrypted header packet. -/
def readerW : EditHeaderReader :=
  ⟨none, some ⟨[99], 1, 2⟩, some [⟨[4, 0, 0, 0], [9]⟩]⟩

/-- An `EditHeader` over `readerW` with one unencrypted position. -/
def editHeaderW : EditHeader := ⟨readerW, [⟨0, 10⟩], [1], [2], 100⟩

/-- An `EditHeader` whose reader already holds an edit-list packet. -/
def editHeaderW2 : EditHeader :=
  ⟨⟨some [0, 10], readerW.header_info, readerW.encrypted_header_packets⟩, [], [1], [2], 100⟩

/-! ## Helper lemmas -/

/-- Inserting a key whose current value is non-empty comma-joins the new value
onto the existing one. -/
theorem lookupEntry_insertEntry (l : List (String × String)) (k v old : String)
    (h : lookupEntry l k = some old) (hne : old ≠ "") :
    lookupEntry (insertEntry l k v) k = some (old ++ ", " ++ v) := by
  induction l with
  | nil => simp [lookupEntry] at h
  | cons p rest ih =>
    obtain ⟨k', v'⟩ := p
    by_cases hk : k' = k
    · rw [lookupEntry, if_pos hk] at h
      obtain rfl : v' = old := Option.some.inj h
      rw [insertEntry, if_pos hk, if_neg hne, lookupEntry, if_pos hk]
    · rw [lookupEntry, if_neg hk] at h
      rw [insertEntry, if_neg hk, lookupEntry, if_neg hk]
      exact ih h

/-- Overwriting binds the key to the new value. -/
theorem lookupEntry_overwriteEntry_self (l : List (String × String)) (k v : String) :
    lookupEntry (overwriteEntry l k v) k = some v := by
  induction l with
  | nil => simp [overwriteEntry, lookupEntry]
  | cons p rest ih =>
    obtain ⟨k', v'⟩ := p
    by_cases hk : k' = k
    · rw [overwriteEntry, if_pos hk, lookupEntry, if_pos hk]
    · rw [overwriteEntry, if_neg hk, lookupEntry, if_neg hk]
      exact ih

/-- Overwriting one key leaves lookups of other keys unchanged. -/
theorem lookupEntry_overwriteEntry_ne (l : List (String × String)) (k0 k v : String)
    (h : k0 ≠ k) : lookupEntry (overwriteEntry l k0 v) k = lookupEntry l k := by
  induction l with
  | nil => simp [overwriteEntry, lookupEntry, h]
  | cons p rest ih =>
    obtain ⟨k', v'⟩ := p
    by_cases hk : k' = k0
    · rw [overwriteEntry, if_pos hk, lookupEntry, lookupEntry, hk, if_neg h, if_neg h]
    · rw [overwriteEntry, if_neg hk, lookupEntry, lookupEntry]
      by_cases hk2 : k' = k
      · rw [if_pos hk2, if_pos hk2]
      · rw [if_neg hk2, if_neg hk2]
        exact ih

/-- Folding overwrites of keys that avoid `k` leaves the lookup of `k`
unchanged. -/
theorem lookupEntry_foldl_overwrite_not_mem (l : List (String × String))
    (acc : List (String × String)) (k : String) (h : k ∉ l.map Prod.fst) :
    lookupEntry (l.foldl (fun a p => overwriteEntry a p.1 p.2) acc) k =
      lookupEntry acc k := by
  induction l generalizing acc with
  | nil => rfl
  | cons p rest ih =>
    obtain ⟨k0, v0⟩ := p
    simp only [List.map_cons, List.mem_cons, not_or] at h
    rw [List.foldl_cons, ih _ h.2, lookupEntry_overwriteEntry_ne _ _ _ _ (fun hc => h.1 hc.symm)]

/-- Folding the overwrites of a duplicate-free entry list rebinds every key of
that list to its value there. -/
theorem lookupEntry_foldl_overwrite (l : List (String × String))
    (acc : List (String × String)) (k v : String)
    (hnd : (l.map Prod.fst).Nodup) (h : lookupEntry l k = some v) :
    lookupEntry (l.foldl (fun a p => overwriteEntry a p.1 p.2) acc) k = some v := by
  induction l generalizing acc with
  | nil => simp [lookupEntry] at h
  | cons p rest ih =>
    obtain ⟨k0, v0⟩ := p
    simp only [List.map_cons, List.nodup_cons] at hnd
    rw [List.foldl_cons]
    by_cases hk : k0 = k
    · rw [lookupEntry, if_pos hk] at h
      obtain rfl : v0 = v := Option.some.inj h
      subst hk
      rw [lookupEntry_foldl_overwrite_not_mem rest _ k0 hnd.1]
      exact lookupEntry_overwriteEntry_self acc k0 v0
    · rw [lookupEntry, if_neg hk] at h
      exact ih _ hnd.2 h

/-- A reversed `findSome?` scan returns the last hit of a forward
`filterMap`. -/
theorem findSome?_reverse_eq_getLast?_filterMap {α β : Type} (l : List α) (f : α → Option β) :
    l.reverse.findSome? f = (l.filterMap f).getLast? := by
  induction l with
  | nil => rfl
  | cons a t ih =>
    rw [List.reverse_cons, List.findSome?_append, ih, List.filterMap_cons]
    cases hfa : f a with
    | none =>
      have : [a].findSome? f = none := by simp [List.findSome?, hfa]
      rw [this, Option.or_none]
    | some b =>
      have h1 : [a].findSome? f = some b := by simp [List.findSome?, hfa]
      rw [h1]
      cases hl : (t.filterMap f).getLast? with
      | none =>
        rw [List.getLast?_eq_none_iff.mp hl]
        rfl
      | some c =>
        obtain ⟨x, xs, hxe⟩ : ∃ x xs, t.filterMap f = x :: xs := by
          cases hfe : t.filterMap f with
          | nil => rw [hfe] at hl; simp at hl
          | cons x xs => exact ⟨x, xs, rfl⟩
        rw [hxe, List.getLast?_cons_cons]
        rw [hxe] at hl
        rw [hl]
        rfl

/-- The fold of `create_edit_list` accumulates exactly the recurrence of the
claimed closed form. -/
theorem create_edit_list_foldl (streamLength : Nat) (ps : List UnencryptedPosition)
    (acc : List Nat) (prev : Nat) :
    (ps.foldl (create_edit_list_step streamLength) (acc, prev)).1 =
      acc ++ claim_edit_list streamLength prev ps := by
  induction ps generalizing acc prev with
  | nil => simp [claim_edit_list]
  | cons r rs ih =>
    rw [List.foldl_cons, claim_edit_list]
    show (rs.foldl (create_edit_list_step streamLength)
      (acc ++ [_, _], _)).1 = _
    rw [ih]
    simp

/-! ## Claim theorems -/

/-- Claim C1: `create_edit_list` returns the flattened `(discard, keep)` pairs
with `discard = (start - clamp_down start) + previous_trailing`,
`keep = end - start` and `previous_trailing = clamp_up end - end` (first
trailing 0); on the pinned test positions over stream length 5485112 it yields
`[0, 7853, 71721, 307929, 51299, 38]`. -/
theorem c1_create_edit_list :
    (∀ (positions : List UnencryptedPosition) (streamLength : Nat),
        create_edit_list positions streamLength =
          claim_edit_list streamLength 0 positions) ∧
    create_edit_list test_positions 5485112 = [0, 7853, 71721, 307929, 51299, 38] := by
  constructor
  · intro ps L
    unfold create_edit_list
    simpa using create_edit_list_foldl L ps [] 0
  · rfl

/-- Claim C7 (amended): the data key is the query id followed by the format's
file ending (`.bam`, `.cram`, `.vcf.gz`, `.bcf`), suffixed with `.c4gh`
exactly when the query's object type is Crypt4GH; the index key is the id
followed by the index ending (`.bam.bai`, `.cram.crai`, `.vcf.gz.tbi`,
`.bcf.csi`) and never receives a `.c4gh` suffix, since `fmt_index` does not
consult the object type. -/
theorem c7_file_naming :
    ∀ (f : Format) (q : Query) (id : String),
      f.fmt_file q =
        q.id ++ f.file_ending ++ (if q.object_type.is_crypt4gh then ".c4gh" else "") ∧
      f.fmt_index id = id ++ f.index_file_ending ∧
      Format.bam.file_ending = ".bam" ∧ Format.cram.file_ending = ".cram" ∧
      Format.vcf.file_ending = ".vcf.gz" ∧ Format.bcf.file_ending = ".bcf" ∧
      Format.bam.index_file_ending = ".bam.bai" ∧
      Format.cram.index_file_ending = ".cram.crai" ∧
      Format.vcf.index_file_ending = ".vcf.gz.tbi" ∧
      Format.bcf.index_file_ending = ".bcf.csi" := by
  intro f q id
  refine ⟨?_, rfl, rfl, rfl, rfl, rfl, rfl, rfl, rfl, rfl⟩
  unfold Format.fmt_file
  cases h : q.object_type.is_crypt4gh <;>
    simp [h, String.append_assoc, String.append_empty]

/-- Claim C7, counterexample to the index-key suffix: for a Crypt4GH BAM query
the data key ends in `.c4gh` but the index key produced by `fmt_index` is
`id1.bam.bai`, which does not end in `.c4gh`. -/
theorem c7_counterexample :
    Format.fmt_file .bam c7Query = "id1.bam.c4gh" ∧
    Format.fmt_index .bam "id1" = "id1.bam.bai" ∧
    endsWith (Format.fmt_index .bam "id1") ".c4gh" = false := by
  decide

/-- Claim C9: `KeyType::from_ending` returns `Index` exactly when the key ends
with `.bam.bai`, `.cram.crai`, `.vcf.gz.tbi`, `.bam.gzi`, `.vcf.gz.gzi` or
`.bcf.gzi`, and `File` otherwise; in particular a key ending in `.bcf.csi` is
classified as `File`. -/
theorem c9_key_type_from_ending :
    (∀ key : String,
      KeyType.from_ending key = .index ↔
        (endsWith key ".bam.bai" = true ∨ endsWith key ".cram.crai" = true ∨
         endsWith key ".vcf.gz.tbi" = true ∨ endsWith key ".bam.gzi" = true ∨
         endsWith key ".vcf.gz.gzi" = true ∨ endsWith key ".bcf.gzi" = true)) ∧
    KeyType.from_ending "sample.bcf.csi" = .file := by
  refine ⟨fun key => ?_, by decide⟩
  unfold KeyType.from_ending
  simp only [Format.index_file_ending]
  split
  · next h =>
    simp only [Bool.or_eq_true] at h
    constructor
    · intro _
      tauto
    · intro _
      rfl
  · next h =>
    simp only [Bool.or_eq_true, not_or] at h
    constructor
    · intro hc
      exact absurd hc (by decide)
    · intro hd
      exact absurd hd (by tauto)

/-- Claim C10: inserting (or `with_header`-ing) a key that already has a
non-empty value appends the new value after a comma and space, whereas
`extend` overwrites the value at every key shared with the other map. -/
theorem c10_headers_insert_extend :
    ∀ (m m2 : Headers) (k v old : String),
      (m.lookup k = some old → old ≠ "" →
        (m.insert k v).lookup k = some (old ++ ", " ++ v) ∧
        (m.with_header k v).lookup k = some (old ++ ", " ++ v)) ∧
      ((m2.entries.map Prod.fst).Nodup → m2.lookup k = some v →
        (m.extend m2).lookup k = some v) := by
  intro m m2 k v old
  constructor
  · intro h hne
    have := lookupEntry_insertEntry m.entries k v old h hne
    exact ⟨this, this⟩
  · intro hnd h
    exact lookupEntry_foldl_overwrite m2.entries m.entries k v hnd h

/-- Witness for claim C10 at concrete headers. -/
theorem c10_witness :
    ((⟨[("Range", "bytes=0-1023")]⟩ : Headers).insert "Range" "bytes=1024-2047").lookup
        "Range" = some "bytes=0-1023, bytes=1024-2047" ∧
    ((⟨[("Range", "bytes=0-1023")]⟩ : Headers).extend
        ⟨[("Range", "other")]⟩).lookup "Range" = some "other" :=
  ⟨(((c10_headers_insert_extend ⟨[("Range", "bytes=0-1023")]⟩ ⟨[("Range", "other")]⟩
      "Range" "bytes=1024-2047" "bytes=0-1023").1 rfl (by decide)).1).trans (by decide),
   (c10_headers_insert_extend ⟨[("Range", "bytes=0-1023")]⟩ ⟨[("Range", "other")]⟩
      "Range" "other" "bytes=0-1023").2 (by decide) rfl⟩

/-- Claim C2 (amended): for a Header-class query the `search_header` tests pin
exactly one URL for the BGZF formats in the repository (BAM, async and
blocking, and BCF): the Header-class header position with its `Range` header;
no BGZF EOF data URL is appended. -/
theorem c2_header_class_single_url :
    bamSearchHeaderExpectedResponse.urls.length = 1 ∧
    bamSearchHeaderExpectedResponse.urls.map Url.classTag = [some Class.header] ∧
    (∀ u : String,
      (bcfSearchHeaderExpectedResponse u).urls.length = 1 ∧
      (bcfSearchHeaderExpectedResponse u).urls.map Url.classTag = [some Class.header]) ∧
    (∀ u : String,
      (blockingBamSearchHeaderExpectedResponse u).urls.length = 1 ∧
      (blockingBamSearchHeaderExpectedResponse u).urls.map Url.classTag =
        [some Class.header]) := by
  refine ⟨by decide, by decide, fun u => ⟨rfl, rfl⟩, fun u => ⟨rfl, rfl⟩⟩

/-- Claim C2, counterexample: the response the async BAM `search_header` test
pins for a Header-class query contains one URL, not two. -/
theorem c2_counterexample :
    bamSearchHeaderExpectedResponse.urls.length = 1 ∧
    ¬bamSearchHeaderExpectedResponse.urls.length = 2 := by
  decide

/-- Claim C3 (amended): for a `reference_name = "*"` BAM query the async
engine emits the single byte range
`[start.compressed, file_size - BGZF_EOF_LEN)` and the blocking engine
`[start.compressed, file_size)`, where `start` is the last linear-index entry
across the reference sequences (metadata `unmapped_start` is never consulted)
and, when no linear-index entry exists, the header end offset (async) or the
post-header virtual position (blocking). -/
theorem c3_unmapped_byte_ranges :
    ∀ (header_end_offset file_size : Nat) (hvp : VirtualPosition) (index : BaiIndex),
      bamGetByteRangesForUnmapped header_end_offset file_size index =
        [⟨some ((lastLinearIndexEntry index).getD ⟨header_end_offset, 0⟩).compressed,
          some (file_size - BGZF_EOF.length), none⟩] ∧
      blockingBamGetByteRangesForUnmapped hvp file_size index =
        [⟨some ((lastLinearIndexEntry index).getD hvp).compressed, some file_size⟩] := by
  intro hEnd fs hvp idx
  constructor
  · unfold bamGetByteRangesForUnmapped lastLinearIndexEntry
    rw [findSome?_reverse_eq_getLast?_filterMap]
    cases (idx.reference_sequences.filterMap fun rs => rs.intervals.getLast?).getLast? with
    | none => rfl
    | some vp => rfl
  · unfold blockingBamGetByteRangesForUnmapped lastLinearIndexEntry
    rw [findSome?_reverse_eq_getLast?_filterMap]
    cases (idx.reference_sequences.filterMap fun rs => rs.intervals.getLast?).getLast? with
    | none => rfl
    | some vp => rfl

/-- Claim C3, counterexample: on an index whose metadata `unmapped_start`
(200) exceeds every linear-index entry (100), the engine starts the range at
100, not at the greatest mentioned virtual position 200 the claim requires. -/
theorem c3_counterexample :
    bamGetByteRangesForUnmapped 50 1000 c3Index = [⟨some 100, some 972, none⟩] ∧
    claimedUnmappedRanges 50 1000 c3Index = [⟨some 200, some 972, none⟩] ∧
    bamGetByteRangesForUnmapped 50 1000 c3Index ≠ claimedUnmappedRanges 50 1000 c3Index := by
  decide

/-- Claim C4: when the reader already holds an edit-list packet, `edit_list`
fails with the `Crypt4GHError` message that edit lists already exist; when it
holds none and both the header info and the encrypted packets are readable, it
never fails for that reason. -/
theorem c4_edit_list_precondition :
    ∀ (env : C4ghEnv) (st : EditHeader),
      (st.reader.edit_list_packet.isSome = true →
        edit_list env st = .error (.crypt4GHError .editListsAlreadyExist)) ∧
      (st.reader.edit_list_packet = none →
        st.reader.header_info.isSome = true →
        st.reader.encrypted_header_packets.isSome = true →
        edit_list env st ≠ .error (.crypt4GHError .editListsAlreadyExist)) := by
  intro env st
  constructor
  · intro h
    unfold edit_list
    rw [if_pos h]
  · intro h1 h2 h3
    unfold edit_list
    rw [h1]
    simp only [Option.isSome_none, Bool.false_eq_true, if_false]
    obtain ⟨hi, hhi⟩ := Option.isSome_iff_exists.mp h2
    obtain ⟨ps, hps⟩ := Option.isSome_iff_exists.mp h3
    rw [hhi, hps]
    dsimp only
    cases hser : env.bincode_serialize { hi with packets_count := hi.packets_count + 1 } with
    | error e => simp
    | ok hb =>
      unfold EditHeader.encrypt_edit_list
      cases henc : env.encrypt st.private_key st.recipient_public_key
          (env.make_packet_data_edit_list st.create_edit_list) with
      | error e => simp
      | ok packets =>
        cases hlast : packets.getLast? with
        | none => simp [hlast]
        | some p => simp [hlast]

/-- Witness for claim C4: a reader with an edit-list packet fails, one without
and with readable header info and packets does not fail for that reason. -/
theorem c4_witness :
    edit_list envW editHeaderW2 = .error (.crypt4GHError .editListsAlreadyExist) ∧
    edit_list envW editHeaderW ≠ .error (.crypt4GHError .editListsAlreadyExist) :=
  ⟨(c4_edit_list_precondition envW editHeaderW2).1 rfl,
   (c4_edit_list_precondition envW editHeaderW).2 rfl rfl rfl⟩

/-- Claim C5: `edit_list` assembles the outgoing header from the original
header info with the packet count incremented by one, every original
encrypted packet verbatim (its length field followed by its body, in order),
and the encrypted edit-list packet prefixed by the little-endian `u32` of its
length plus 4. -/
theorem c5_edit_list_header_assembly :
    ∀ (env : C4ghEnv) (st : EditHeader) (hi : HeaderInfo)
      (packets : List EncryptedHeaderPacket) (header_info_bytes edit_list_bytes : List Nat),
      st.reader.edit_list_packet = none →
      st.reader.header_info = some hi →
      st.reader.encrypted_header_packets = some packets →
      env.bincode_serialize { hi with packets_count := hi.packets_count + 1 } =
        .ok header_info_bytes →
      EditHeader.encrypt_edit_list env st
          (env.make_packet_data_edit_list st.create_edit_list) = .ok edit_list_bytes →
      edit_list env st = .ok (some
        ⟨header_info_bytes,
         (packets.map (fun packet => packet.packet_length ++ packet.header)).flatten,
         toLeBytes32 (edit_list_bytes.length + 4) ++ edit_list_bytes⟩) := by
  intro env st hi packets hb eb h1 h2 h3 hser henc
  unfold edit_list
  rw [h1]
  simp only [Option.isSome_none, Bool.false_eq_true, if_false]
  rw [h2, h3]
  dsimp only
  rw [hser, henc]

/-- Witness for claim C5 at a concrete state and concrete library
functions. -/
theorem c5_witness :
    edit_list envW editHeaderW = .ok (some ⟨[7], [4, 0, 0, 0, 9], [6, 0, 0, 0, 0, 10]⟩) :=
  (c5_edit_list_header_assembly envW editHeaderW ⟨[99], 1, 2⟩ [⟨[4, 0, 0, 0], [9]⟩]
    [7] [0, 10] rfl rfl rfl rfl rfl).trans rfl

/-- Claim C6 (amended): `into_one_based` maps the start to start + 1 and keeps
the end; when the start is `u32::MAX` (so start + 1 overflows) it returns an
`io::Error`, and the `From<io::Error>` conversion turns that into
`HtsGetError::IoError`, not `InvalidInput`. -/
theorem c6_into_one_based :
    ∀ (s e : Nat),
      (s ≠ u32Max → 0 < e →
        Interval.into_one_based ⟨some s, some e⟩ = .ok ⟨some (s + 1), some e⟩) ∧
      (s ≠ u32Max →
        Interval.into_one_based ⟨some s, none⟩ = .ok ⟨some (s + 1), none⟩) ∧
      (0 < e → Interval.into_one_based ⟨none, some e⟩ = .ok ⟨none, some e⟩) ∧
      Interval.into_one_based ⟨none, none⟩ = .ok ⟨none, none⟩ ∧
      Interval.into_one_based ⟨some u32Max, some e⟩ =
        .error ⟨.couldNotConvertToOneBased u32Max⟩ ∧
      Interval.into_one_based ⟨some u32Max, none⟩ =
        .error ⟨.couldNotConvertToOneBased u32Max⟩ ∧
      HtsGetError.from_io_error ⟨.couldNotConvertToOneBased u32Max⟩ =
        .ioError (IoMsg.couldNotConvertToOneBased u32Max).render ∧
      (HtsGetError.from_io_error ⟨.couldNotConvertToOneBased u32Max⟩).is_invalid_input =
        false := by
  intro s e
  have hstart : ∀ s' : Nat, s' ≠ u32Max → Interval.convert_start s' = .ok (s' + 1) := by
    intro s' hs
    unfold Interval.convert_start Interval.convert_position
    simp [hs]
  have hend : 0 < e → Interval.convert_end e = .ok e := by
    intro he
    unfold Interval.convert_end Interval.convert_position
    simp [Nat.pos_iff_ne_zero.mp he]
  have hoverflow : Interval.convert_start u32Max =
      .error ⟨.couldNotConvertToOneBased u32Max⟩ := by
    unfold Interval.convert_start Interval.convert_position
    simp
  refine ⟨?_, ?_, ?_, rfl, ?_, ?_, rfl, rfl⟩
  · intro hs he
    simp [Interval.into_one_based, hstart s hs, hend he]
  · intro hs
    simp [Interval.into_one_based, hstart s hs]
  · intro he
    simp [Interval.into_one_based, hend he]
  · simp [Interval.into_one_based, hoverflow]
  · simp [Interval.into_one_based, hoverflow]

/-- Witness for claim C6 at concrete intervals. -/
theorem c6_witness :
    Interval.into_one_based ⟨some 0, some 1⟩ = .ok ⟨some 1, some 1⟩ ∧
    Interval.into_one_based ⟨some u32Max, none⟩ =
      .error ⟨.couldNotConvertToOneBased u32Max⟩ :=
  ⟨(c6_into_one_based 0 1).1 (by decide) (by decide),
   (c6_into_one_based 0 1).2.2.2.2.2.1⟩

/-- Claim C6, counterexample to the error kind: at start `u32::MAX` the result
is an `io::Error`, and the `From<io::Error> for HtsGetError` conversion maps
it to `IoError`, not `InvalidInput`. -/
theorem c6_counterexample :
    Interval.into_one_based ⟨some u32Max, none⟩ =
      .error ⟨.couldNotConvertToOneBased u32Max⟩ ∧
    HtsGetError.from_io_error ⟨.couldNotConvertToOneBased u32Max⟩ =
      .ioError (IoMsg.couldNotConvertToOneBased u32Max).render ∧
    (HtsGetError.from_io_error ⟨.couldNotConvertToOneBased u32Max⟩).is_invalid_input =
      false := by
  refine ⟨?_, rfl, rfl⟩
  have hoverflow : Interval.convert_start u32Max =
      .error ⟨.couldNotConvertToOneBased u32Max⟩ := by
    unfold Interval.convert_start Interval.convert_position
    simp
  simp [Interval.into_one_based, hoverflow]

/-- Claim C8: S3 errors indicating absence (`NoSuchKey` on get, `NotFound` on
head) become `KeyNotFound` and normalize to `NotFound`; every other service
error becomes `AwsS3Error` and maps to `IoError`. -/
theorem c8_storage_error_normalization :
    ∀ (key : String) (ge : GetObjectError) (he : HeadObjectError),
      (ge.indicates_absence = true → mapGetError key ge = .keyNotFound key) ∧
      (ge.indicates_absence = true →
        storageErrorToHtsGetError (mapGetError key ge) = .notFound key) ∧
      (ge.indicates_absence = false →
        storageErrorToHtsGetError (mapGetError key ge) = .ioError ge.to_message) ∧
      (he.indicates_absence = true → mapHeadError key he = .keyNotFound key) ∧
      (he.indicates_absence = true →
        storageErrorToHtsGetError (mapHeadError key he) = .notFound key) ∧
      (he.indicates_absence = false →
        storageErrorToHtsGetError (mapHeadError key he) = .ioError he.to_message) := by
  intro key ge he
  refine ⟨?_, ?_, ?_, ?_, ?_, ?_⟩
  · cases ge <;>
      simp [GetObjectError.indicates_absence, mapGetError, storageErrorToHtsGetError,
        GetObjectError.to_message]
  · cases ge <;>
      simp [GetObjectError.indicates_absence, mapGetError, storageErrorToHtsGetError,
        GetObjectError.to_message]
  · cases ge <;>
      simp [GetObjectError.indicates_absence, mapGetError, storageErrorToHtsGetError,
        GetObjectError.to_message]
  · cases he <;>
      simp [HeadObjectError.indicates_absence, mapHeadError, storageErrorToHtsGetError,
        HeadObjectError.to_message]
  · cases he <;>
      simp [HeadObjectError.indicates_absence, mapHeadError, storageErrorToHtsGetError,
        HeadObjectError.to_message]
  · cases he <;>
      simp [HeadObjectError.indicates_absence, mapHeadError, storageErrorToHtsGetError,
        HeadObjectError.to_message]

/-- Witness for claim C8 at concrete errors. -/
theorem c8_witness :
    storageErrorToHtsGetError (mapGetError "key" (.noSuchKey "m")) = .notFound "key" ∧
    storageErrorToHtsGetError (mapGetError "key" (.unhandled "m")) = .ioError "m" ∧
    storageErrorToHtsGetError (mapHeadError "key" (.notFound "m")) = .notFound "key" ∧
    storageErrorToHtsGetError (mapHeadError "key" (.unhandled "m")) = .ioError "m" :=
  ⟨(c8_storage_error_normalization "key" (.noSuchKey "m") (.notFound "m")).2.1 rfl,
   (c8_storage_error_normalization "key" (.unhandled "m") (.notFound "m")).2.2.1 rfl,
   (c8_storage_error_normalization "key" (.noSuchKey "m") (.notFound "m")).2.2.2.2.1 rfl,
   (c8_storage_error_normalization "key" (.noSuchKey "m") (.unhandled "m")).2.2.2.2.2 rfl⟩

end HtsGet
